import Mathlib

/-!
Shallow embedding of the bigram-representation pipeline
(`generate_bigram_repr.py` and the loader in `bigram_based_models.py`).

Python dicts are modelled as insertion-ordered association lists with
unique keys (`PyDict`); Python list indexing (including negative-index
wraparound and `IndexError`) is modelled by `pyIndex`; a `pdb.set_trace`
or an uncaught exception is modelled as an `Except.error`.  File contents
reached through `open` are passed in as explicit arguments (`Option` for
a file that may be absent).
-/

namespace BigramRepr

/-- A CSV row as the Python `csv.reader` yields it: a list of field strings. -/
abbrev PyRow := List String

/-- A Python dict with string keys, modelled as an insertion-ordered
association list whose keys are unique. -/
abbrev PyDict (α : Type) := List (String × α)

/-- Dict lookup (`d[k]` / `k in d`): the value stored at key `k`, if any. -/
def dictGet? {α : Type} : PyDict α → String → Option α
  | [], _ => none
  | (k₁, v) :: rest, k => if k₁ = k then some v else dictGet? rest k

/-- Python `k in d`. -/
def dictContains {α : Type} (d : PyDict α) (k : String) : Bool :=
  (dictGet? d k).isSome

/-- Python `d[k] = v`: overwrite in place if the key exists (keeping its
position), otherwise append at the end (insertion order). -/
def dictInsert {α : Type} (d : PyDict α) (k : String) (v : α) : PyDict α :=
  if dictContains d k then d.map (fun p => if p.1 = k then (k, v) else p)
  else d ++ [(k, v)]

/-- Python `defaultdict(int); d[k] += 1`: increment the stored count,
inserting the key with count 1 if absent. -/
def dictIncr (d : PyDict Nat) (k : String) : PyDict Nat :=
  if dictContains d k then d.map (fun p => if p.1 = k then (p.1, p.2 + 1) else p)
  else d ++ [(k, 1)]

/-- Python list indexing `l[i]`: negative indices wrap around once; an
index that is still out of range is an `IndexError`, modelled as `none`. -/
def pyIndex {α : Type} (l : List α) (i : Int) : Option α :=
  let j := if i < 0 then i + (l.length : Int) else i
  if 0 ≤ j then l[j.toNat]? else none

/-- The adjacent-character bigrams of a text, in order:
`zip(text, text[1:])`, each pair joined into a 2-character string. -/
def bigramsOf (text : List Char) : List String :=
  (text.zip text.tail).map (fun p => String.mk [p.1, p.2])

/-- The single-field placeholder row that the scripts special-case. -/
def sentinelRow : PyRow := ["Place for parser output"]

/-! ## `count_bigrams` -/

/-- Loop state of `count_bigrams`: the two count dicts plus the `(text,
label_binary)` loop variables, which survive across iterations — after the
`except ValueError: pass` branch the previous row's values are still in
scope (`none` when no row has been unpacked yet). -/
structure CountSt where
  ch : PyDict Nat
  other : PyDict Nat
  lastTextLabel : Option (String × String)

/-- One iteration of the `count_bigrams` loop.  A 7-field row is unpacked;
the sentinel row hits `except ValueError: pass` and falls through with the
stale `text` / `label_binary` (an `UnboundLocalError` if there are none);
any other malformed row drops into `pdb.set_trace`. -/
def countStep (st : CountSt) (row : PyRow) : Except String CountSt := do
  let (text, label_binary) ←
    if row.length = 7 then Except.ok (row.getD 1 "", row.getD 3 "")
    else if row = sentinelRow then
      match st.lastTextLabel with
      | some tl => Except.ok tl
      | none => Except.error "UnboundLocalError"
    else Except.error "pdb.set_trace"
  let bgs := bigramsOf text.data
  if label_binary = "0" then
    Except.ok ⟨bgs.foldl dictIncr st.ch, st.other, some (text, label_binary)⟩
  else
    Except.ok ⟨st.ch, bgs.foldl dictIncr st.other, some (text, label_binary)⟩

/-- `count_bigrams(path_in)`: fold the per-row step over the input rows,
returning the `ch` and `other` bigram-count dicts. -/
def count_bigrams (rows : List PyRow) : Except String (PyDict Nat × PyDict Nat) :=
  (rows.foldlM countStep ⟨[], [], none⟩).map (fun st => (st.ch, st.other))

/-! ## `get_top_n` -/

/-- `get_top_n(bigram_counts, n)`: sort the count values descending
(`sorted(values, reverse=True)`), take `counts[n-1]` as the threshold
(Python indexing — `IndexError` when the dict has fewer than `n` entries),
and keep every entry whose count reaches the threshold. -/
def get_top_n (bigram_counts : PyDict Nat) (n : Nat) : Option (PyDict Nat) :=
  match pyIndex (List.insertionSort (· ≥ ·) (bigram_counts.map Prod.snd))
      ((n : Int) - 1) with
  | none => none
  | some threshold => some (bigram_counts.filter (fun p => decide (threshold ≤ p.2)))

/-! ## `get_bigram_to_dim_mapping` -/

/-- The distinct keys of the union `set(d₁.keys()) ∪ set(d₂.keys())`. -/
def unionKeys (d₁ d₂ : PyDict Nat) : List String :=
  ((d₁.map Prod.fst) ++ (d₂.map Prod.fst)).dedup

/-- A list is a possible iteration order of the Python set
`set(d₁.keys()).union(set(d₂.keys()))` exactly when it enumerates each
element of the union once, in some order (CPython string hashing is
randomized, so no particular order is guaranteed). -/
def IsSetIterOrder (order : List String) (d₁ d₂ : PyDict Nat) : Prop :=
  order.Perm (unionKeys d₁ d₂)

/-- `get_bigram_to_dim_mapping(top_n_ch, top_n_other)`: enumerate the
union set in its iteration order, assigning indices 0, 1, 2, … as
encountered.  The iteration order of the set is an input here because the
source iterates a Python `set` directly, without sorting. -/
def get_bigram_to_dim_mapping (iterOrder : List String) : PyDict Nat :=
  iterOrder.enum.map (fun p => (p.2, p.1))

/-- Lexicographic comparison of strings as character lists. -/
def lexLe : List Char → List Char → Bool
  | [], _ => true
  | _ :: _, [] => false
  | a :: as, b :: bs => if a < b then true else if b < a then false else lexLe as bs

/-- Modelled from the spec: the VocabularyBuilder described in the spec
sorts the union of the two selected-bigram sets lexicographically and
assigns indices `0..D-1` in that sorted order.  (Comparison definition for
claim C2; the source has no such sort.) -/
def spec_sorted_mapping (d₁ d₂ : PyDict Nat) : PyDict Nat :=
  ((List.insertionSort (fun a b => lexLe a.data b.data) (unionKeys d₁ d₂)).enum).map
    (fun p => (p.2, p.1))

/-! ## Mapping persistence (`json.dump` / `json.load`) -/

/-- `dump_bigram_to_dim_mapping(mapping, path_out)`: `json.dump` writes
the dict as a JSON object — modelled at the key-value level as the list of
pairs in insertion order. -/
def dump_bigram_to_dim_mapping (mapping : PyDict Nat) : List (String × Nat) :=
  mapping

/-- `json.load` of a mapping file: rebuild a dict from the serialized
key-value pairs in order (later duplicates would overwrite). -/
def load_mapping_file (pairs : List (String × Nat)) : PyDict Nat :=
  pairs.foldl (fun d p => dictInsert d p.1 p.2) []

/-! ## `gen_bigram_repr` -/

/-- Processing of one bigram in the encoding loop: if the bigram is a key
of the mapping, `ohe[mapping[bigram]] += 1`, else the vector is untouched. -/
def encodeStep (mapping : PyDict Nat) (ohe : List Nat) (bigram : String) : List Nat :=
  match dictGet? mapping bigram with
  | some dim => ohe.set dim (ohe.getD dim 0 + 1)
  | none => ohe

/-- The per-record encoding loop body of `gen_bigram_repr`:
`ohe = np.zeros(len(mapping))`, then for every bigram of the text that is
a key of the mapping, `ohe[mapping[bigram]] += 1`. -/
def encode (mapping : PyDict Nat) (text : List Char) : List Nat :=
  (bigramsOf text).foldl (encodeStep mapping) (List.replicate mapping.length 0)

/-- An output row: `", ".join([text_id, label_binary, label_ternary,
label_finegrained] + [str(int(v)) for v in ohe])`. -/
def formatRow (text_id label_binary label_ternary label_finegrained : String)
    (ohe : List Nat) : String :=
  String.intercalate ", "
    ([text_id, label_binary, label_ternary, label_finegrained] ++ ohe.map toString)

/-- One iteration of the `gen_bigram_repr` loop over `enumerate(csv_reader)`.
State: `(write_list, chunks)` where `chunks` are the strings already
written to the output file, one per `fout.write` call.  When
`i % 10000 == 0 and len(write_list) != 0` the buffer is flushed and the
current row is NOT appended (the append sits in the `else` branch);
otherwise the row is appended to the buffer.  The sentinel row is skipped
with `continue`; any other malformed row drops into `pdb.set_trace`. -/
def genStep (mapping : PyDict Nat) (st : List String × List String)
    (ir : Nat × PyRow) : Except String (List String × List String) :=
  let i := ir.1
  let row := ir.2
  if row.length = 7 then
    let ohe := encode mapping (row.getD 1 "").data
    if i % 10000 = 0 ∧ st.1 ≠ [] then
      Except.ok ([], st.2 ++ [String.intercalate "\n" st.1])
    else
      Except.ok (st.1 ++ [formatRow (row.getD 0 "") (row.getD 3 "") (row.getD 4 "")
        (row.getD 5 "") ohe], st.2)
  else if row = sentinelRow then Except.ok st
  else Except.error "pdb.set_trace"

/-- `gen_bigram_repr(path_in, path_out, path_mapping)`.  `mappingFile` is
the parsed content of the mapping file, `none` when
`os.path.exists(path_mapping)` is false (the function then raises before
the output file is even opened).  The result is the list of strings
actually written to the output file; whatever remains in `write_list`
after the loop is never flushed (the source neither writes nor closes it
at the end). -/
def gen_bigram_repr (mappingFile : Option (PyDict Nat)) (rows : List PyRow) :
    Except String (List String) :=
  match mappingFile with
  | none =>
      Except.error "Bigram-to-dim-mapping not found. Please generate the mapping first!"
  | some mapping =>
      (rows.enum.foldlM (genStep mapping) ([], [])).map (fun st => st.2)

/-! ## `load_id_to_label` -/

/-- Python `==` between a `str` and an `int` compares values of different
types: it is always `False` (no coercion, no exception).  The source
compares the CSV field `label` (a string) against the integers 0 and 1. -/
def strEqInt (_ : String) (_ : Int) : Bool := false

/-- The row loop of `load_id_to_label`.  `goal = limit / 2` (true
division).  `num_zeros` and `num_ones` are initialized to 0 and — as in
the source — never incremented anywhere; rows that fail the 5-field
unpacking are skipped via `continue`. -/
def loadLoop (goal : Rat) (dict : PyDict String) (num_zeros num_ones : Nat) :
    List PyRow → PyDict String
  | [] => dict
  | row :: rest =>
    if (num_ones : Rat) ≥ goal ∧ (num_zeros : Rat) ≥ goal then dict
    else if row.length = 5 then
      let text_id := row.getD 0 ""
      let label := row.getD 3 ""
      if strEqInt label 0 ∧ (num_zeros : Rat) ≥ goal then
        loadLoop goal dict num_zeros num_ones rest
      else if strEqInt label 1 ∧ (num_ones : Rat) ≥ goal then
        loadLoop goal dict num_zeros num_ones rest
      else
        loadLoop goal (dictInsert dict text_id label) num_zeros num_ones rest
    else loadLoop goal dict num_zeros num_ones rest

/-- `load_id_to_label(path, limit)`: scan the label CSV accumulating
`id → label`, with the (intended, but inoperative) per-class quota
`goal = limit / 2`. -/
def load_id_to_label (rows : List PyRow) (limit : Int) : PyDict String :=
  loadLoop ((limit : Rat) / 2) [] 0 0 rows

instance (order : List String) (d₁ d₂ : PyDict Nat) :
    Decidable (IsSetIterOrder order d₁ d₂) :=
  List.decidablePerm order (unionKeys d₁ d₂)

/-! ## Helper lemmas -/

theorem pyIndex_nonneg {α : Type} (l : List α) (i : Int) (h : 0 ≤ i) :
    pyIndex l i = l[i.toNat]? := by
  simp only [pyIndex]
  rw [if_neg (show ¬ i < 0 by omega), if_pos h]

theorem foldl_encodeStep_length (mapping : PyDict Nat) (bgs : List String)
    (ohe : List Nat) :
    (bgs.foldl (encodeStep mapping) ohe).length = ohe.length := by
  induction bgs generalizing ohe with
  | nil => rfl
  | cons b rest ih =>
    rw [List.foldl_cons, ih]
    unfold encodeStep
    cases dictGet? mapping b <;> simp

theorem dictGet?_eq_none_iff {α : Type} (d : PyDict α) (k : String) :
    dictGet? d k = none ↔ k ∉ d.map Prod.fst := by
  induction d with
  | nil => simp [dictGet?]
  | cons p rest ih =>
    obtain ⟨k₁, v⟩ := p
    by_cases h : k₁ = k
    · subst h
      simp [dictGet?]
    · simp [dictGet?, h, ih, Ne.symm h]

theorem dictInsert_of_not_mem {α : Type} (d : PyDict α) (k : String) (v : α)
    (h : k ∉ d.map Prod.fst) : dictInsert d k v = d ++ [(k, v)] := by
  have hc : dictContains d k = false := by
    rw [dictContains, (dictGet?_eq_none_iff d k).mpr h]
    rfl
  rw [dictInsert, hc]
  simp

theorem foldl_dictInsert_of_nodup (pairs : List (String × Nat)) :
    ∀ acc : PyDict Nat,
      (∀ p ∈ pairs, p.1 ∉ acc.map Prod.fst) → (pairs.map Prod.fst).Nodup →
      pairs.foldl (fun d p => dictInsert d p.1 p.2) acc = acc ++ pairs := by
  induction pairs with
  | nil => intro acc _ _; simp
  | cons q rest ih =>
    intro acc hdisj hnodup
    rw [List.foldl_cons, dictInsert_of_not_mem acc q.1 q.2 (hdisj q (by simp))]
    rw [List.map_cons] at hnodup
    have hnd := List.nodup_cons.mp hnodup
    rw [ih (acc ++ [(q.1, q.2)]) ?_ hnd.2]
    · simp
    · intro p hp
      simp only [List.map_append, List.mem_append, List.map_cons, List.map_nil,
        List.mem_singleton, not_or]
      refine ⟨hdisj p (List.mem_cons_of_mem q hp), ?_⟩
      intro hpq
      exact hnd.1 (hpq ▸ List.mem_map_of_mem Prod.fst hp)

/-- In a descending-sorted list, the value at index `k` has at most `k`
elements strictly above it and at least `k + 1` elements at or above it
(duplicates counted). -/
theorem sorted_nth_counts :
    ∀ s : List Nat, List.Sorted (· ≥ ·) s →
      ∀ (k : Nat) (hk : k < s.length) (t : Nat), s[k] = t →
        s.countP (fun v => decide (t < v)) ≤ k ∧
        k + 1 ≤ s.countP (fun v => decide (t ≤ v)) := by
  intro s
  induction s with
  | nil => intro _ k hk; simp at hk
  | cons a rest ih =>
    intro hs k hk t ht
    have hhead : ∀ x ∈ rest, x ≤ a := fun x hx => List.rel_of_sorted_cons hs x hx
    have htail : List.Sorted (· ≥ ·) rest := List.Sorted.of_cons hs
    cases k with
    | zero =>
      have hat : a = t := by simpa using ht
      subst hat
      constructor
      · have hzero : (a :: rest).countP (fun v => decide (a < v)) = 0 := by
          rw [List.countP_eq_zero]
          intro x hx
          simp only [decide_eq_true_eq, not_lt]
          rcases List.mem_cons.mp hx with rfl | hx'
          · exact le_refl x
          · exact hhead x hx'
        omega
      · rw [List.countP_cons]
        simp
    | succ k =>
      have hk' : k < rest.length := by simpa using hk
      have ht' : rest[k] = t := by simpa using ht
      obtain ⟨ih1, ih2⟩ := ih htail k hk' t ht'
      have hta : t ≤ a := ht' ▸ hhead _ (List.getElem_mem hk')
      constructor
      · rw [List.countP_cons]
        by_cases hlt : t < a <;> simp [hlt] <;> omega
      · rw [List.countP_cons, decide_eq_true hta]
        simp
        omega

/-! ## Theorems for the claims -/

/-- C6: for any vocabulary mapping of size D, every encoded vector
produced under it has length exactly D, for every record text, regardless
of the text's length or out-of-vocabulary content. -/
theorem encoded_vector_length (mapping : PyDict Nat) (text : List Char) :
    (encode mapping text).length = mapping.length := by
  rw [encode, foldl_encodeStep_length, List.length_replicate]

/-- C7: when the mapping file does not exist, `gen_bigram_repr` raises the
fatal error naming the missing mapping before the output file is even
opened — no mapping is generated on the fly and no output is produced,
whatever the input rows are. -/
theorem missing_mapping_is_fatal (rows : List PyRow) :
    gen_bigram_repr none rows
      = Except.error "Bigram-to-dim-mapping not found. Please generate the mapping first!" :=
  rfl

/-- C1 fails on the code: a corpus with a single well-formed record
produces an empty output file.  The row is appended to `write_list`, but
the buffer is only ever written when `i % 10000 == 0` with a non-empty
buffer, and the loop ends without a final flush — so the record's row
never appears in the output, contradicting one-output-row-per-record. -/
theorem encoder_loses_buffered_rows :
    gen_bigram_repr (some [("aa", 0)]) [["1", "aa", "m", "0", "t", "f", "s"]]
      = Except.ok [] := by
  rfl

/-- C2 fails on the code: `get_bigram_to_dim_mapping` enumerates the
(unordered) union set as built, without sorting.  Both `["ab", "aa"]` and
`["aa", "ab"]` are possible iteration orders of the union of the selected
sets `{"aa"}` and `{"ab"}`, and they yield different mappings; the first
also differs from the spec's lexicographically sorted assignment. -/
theorem mapping_depends_on_set_iteration_order :
    IsSetIterOrder ["ab", "aa"] [("aa", 1)] [("ab", 1)] ∧
    IsSetIterOrder ["aa", "ab"] [("aa", 1)] [("ab", 1)] ∧
    get_bigram_to_dim_mapping ["ab", "aa"] ≠ get_bigram_to_dim_mapping ["aa", "ab"] ∧
    get_bigram_to_dim_mapping ["ab", "aa"] ≠ spec_sorted_mapping [("aa", 1)] [("ab", 1)] := by
  refine ⟨by decide, by decide, by decide, by decide⟩

/-- C3 fails on the code: with quota limit 2 (so `ceil(2/2) = 1` per
class) the loader accepts all three zero-labelled ids.  The per-class
counters are never incremented and `label == 0` compares a string with an
integer (always false in Python), so no quota ever takes effect. -/
theorem loader_quota_is_inoperative :
    load_id_to_label
        [["a", "t", "m", "0", "c"], ["b", "t", "m", "0", "c"], ["c", "t", "m", "0", "c"]] 2
      = [("a", "0"), ("b", "0"), ("c", "0")] := by
  norm_num [load_id_to_label, loadLoop, strEqInt, dictInsert, dictContains, dictGet?]
  decide

/-- C8 fails on the code: in `count_bigrams` the sentinel row hits
`except ValueError: pass` and then falls through to the counting code with
the previous row's `text` and `label_binary` still bound, so the previous
row's bigrams are counted twice (count 2 for "ab" instead of 1); a
sentinel as the very first row leaves those variables unbound and the
function aborts instead of skipping. -/
theorem sentinel_row_recounts_previous_row :
    count_bigrams [["1", "ab", "m", "0", "t", "f", "s"], sentinelRow]
      = Except.ok ([("ab", 2)], []) ∧
    count_bigrams [sentinelRow] = Except.error "UnboundLocalError" :=
  ⟨rfl, rfl⟩

/-- C10: `get_top_n` indexes `counts[n-1]` into the sorted value list, so
whenever the counts dict has fewer than `n` entries the lookup is out of
bounds and the selection fails (an `IndexError`) instead of returning all
bigrams. -/
theorem top_n_undefined_below_n_entries (bigram_counts : PyDict Nat) (n : Nat)
    (h : bigram_counts.length < n) : get_top_n bigram_counts n = none := by
  have hlen : (List.insertionSort (· ≥ ·) (bigram_counts.map Prod.snd)).length
      = bigram_counts.length := by
    rw [(List.perm_insertionSort _ _).length_eq, List.length_map]
  have hidx : pyIndex (List.insertionSort (· ≥ ·) (bigram_counts.map Prod.snd))
      ((n : Int) - 1) = none := by
    rw [pyIndex_nonneg _ _ (by omega)]
    apply List.getElem?_eq_none_iff.mpr
    rw [hlen]
    omega
  unfold get_top_n
  rw [hidx]

/-- C10 witness: a counts dict with one entry and `n = 2`. -/
theorem top_n_undefined_below_n_entries_witness :
    ([("aa", 5)] : PyDict Nat).length < 2 ∧ get_top_n [("aa", 5)] 2 = none :=
  ⟨by decide, top_n_undefined_below_n_entries [("aa", 5)] 2 (by decide)⟩

/-- C4: for a counts dict with at least `n ≥ 1` entries, `get_top_n`
returns exactly the entries whose count reaches a threshold `t`, where `t`
is the `n`-th largest count value with duplicates counted (fewer than `n`
values are strictly above `t`, at least `n` are at or above it); all
boundary ties are kept, so at least `n` entries are returned (possibly
more).  The result is a function of the counts dict alone, so two runs on
identical counts return the identical selection. -/
theorem top_n_is_threshold_filter (bigram_counts : PyDict Nat) (n : Nat)
    (h1 : 1 ≤ n) (h2 : n ≤ bigram_counts.length) :
    ∃ t : Nat,
      get_top_n bigram_counts n
        = some (bigram_counts.filter (fun p => decide (t ≤ p.2))) ∧
      t ∈ bigram_counts.map Prod.snd ∧
      (bigram_counts.map Prod.snd).countP (fun v => decide (t < v)) < n ∧
      n ≤ (bigram_counts.map Prod.snd).countP (fun v => decide (t ≤ v)) ∧
      n ≤ (bigram_counts.filter (fun p => decide (t ≤ p.2))).length := by
  have hperm := List.perm_insertionSort (· ≥ ·) (bigram_counts.map Prod.snd)
  have hsorted := List.sorted_insertionSort (· ≥ ·) (bigram_counts.map Prod.snd)
  have hslen : (List.insertionSort (· ≥ ·) (bigram_counts.map Prod.snd)).length
      = bigram_counts.length := by
    rw [hperm.length_eq, List.length_map]
  have hk : n - 1 < (List.insertionSort (· ≥ ·) (bigram_counts.map Prod.snd)).length := by
    omega
  set s := List.insertionSort (· ≥ ·) (bigram_counts.map Prod.snd) with hsdef
  obtain ⟨hc1, hc2⟩ := sorted_nth_counts s hsorted (n - 1) hk s[n - 1] rfl
  have hmem : s[n - 1] ∈ bigram_counts.map Prod.snd := hperm.subset (List.getElem_mem hk)
  have hidx : pyIndex s ((n : Int) - 1) = some s[n - 1] := by
    rw [pyIndex_nonneg s _ (by omega)]
    have htn : ((n : Int) - 1).toNat = n - 1 := by omega
    rw [htn, List.getElem?_eq_getElem hk]
  refine ⟨s[n - 1], ?_, hmem, ?_, ?_, ?_⟩
  · unfold get_top_n
    rw [← hsdef, hidx]
  · rw [← hperm.countP_eq]
    omega
  · rw [← hperm.countP_eq]
    omega
  · rw [← List.countP_eq_length_filter]
    have h3 : n ≤ (bigram_counts.map Prod.snd).countP (fun v => decide (s[n - 1] ≤ v)) := by
      rw [← hperm.countP_eq]
      omega
    rw [List.countP_map] at h3
    exact h3

/-- C4 witness: counts `{"aa": 5, "bb": 3, "cc": 3, "dd": 1}` with `n = 2`:
the second-largest value is 3, the boundary tie `"cc"` is included, and
the selection has 3 > 2 entries. -/
theorem top_n_is_threshold_filter_witness :
    (1 ≤ 2 ∧ 2 ≤ ([("aa", 5), ("bb", 3), ("cc", 3), ("dd", 1)] : PyDict Nat).length) ∧
    get_top_n [("aa", 5), ("bb", 3), ("cc", 3), ("dd", 1)] 2
      = some [("aa", 5), ("bb", 3), ("cc", 3)] ∧
    (∃ t : Nat,
      get_top_n [("aa", 5), ("bb", 3), ("cc", 3), ("dd", 1)] 2
        = some (([("aa", 5), ("bb", 3), ("cc", 3), ("dd", 1)] : PyDict Nat).filter
            (fun p => decide (t ≤ p.2))) ∧
      t ∈ ([("aa", 5), ("bb", 3), ("cc", 3), ("dd", 1)] : PyDict Nat).map Prod.snd ∧
      (([("aa", 5), ("bb", 3), ("cc", 3), ("dd", 1)] : PyDict Nat).map Prod.snd).countP
          (fun v => decide (t < v)) < 2 ∧
      2 ≤ (([("aa", 5), ("bb", 3), ("cc", 3), ("dd", 1)] : PyDict Nat).map Prod.snd).countP
          (fun v => decide (t ≤ v)) ∧
      2 ≤ (([("aa", 5), ("bb", 3), ("cc", 3), ("dd", 1)] : PyDict Nat).filter
          (fun p => decide (t ≤ p.2))).length) :=
  ⟨⟨by decide, by decide⟩, by decide,
    top_n_is_threshold_filter [("aa", 5), ("bb", 3), ("cc", 3), ("dd", 1)] 2
      (by decide) (by decide)⟩

/-- C9: dumping a mapping to the mapping file and loading it back
reconstructs exactly the original bigram-to-index pairs, for every mapping
with distinct keys (a dict invariant) whose indices are dense over
`[0, D)`. -/
theorem mapping_save_load_roundtrip (mapping : PyDict Nat)
    (hkeys : (mapping.map Prod.fst).Nodup)
    (_hdense : ∀ i < mapping.length, ∃ p ∈ mapping, p.2 = i) :
    load_mapping_file (dump_bigram_to_dim_mapping mapping) = mapping := by
  rw [load_mapping_file, dump_bigram_to_dim_mapping,
    foldl_dictInsert_of_nodup mapping [] (by simp) hkeys]
  simp

/-- C5 auxiliary: folding the encoding step over a bigram list adds, at
every in-range position `j`, one for each bigram that the mapping sends to
`j`. -/
theorem foldl_encodeStep_getD (mapping : PyDict Nat) (j : Nat) (hj : j < mapping.length) :
    ∀ (bgs : List String) (ohe : List Nat), ohe.length = mapping.length →
      (bgs.foldl (encodeStep mapping) ohe).getD j 0
        = ohe.getD j 0 + bgs.countP (fun b => decide (dictGet? mapping b = some j)) := by
  intro bgs
  induction bgs with
  | nil => intro ohe _; simp
  | cons b rest ih =>
    intro ohe hlen
    rw [List.foldl_cons, List.countP_cons]
    cases hb : dictGet? mapping b with
    | none =>
      have hid : encodeStep mapping ohe b = ohe := by
        unfold encodeStep
        rw [hb]
      rw [hid, ih ohe hlen]
      simp
    | some dim =>
      have hstep : encodeStep mapping ohe b = ohe.set dim (ohe.getD dim 0 + 1) := by
        unfold encodeStep
        rw [hb]
      have hlen' : (ohe.set dim (ohe.getD dim 0 + 1)).length = mapping.length := by
        simp [hlen]
      rw [hstep, ih _ hlen']
      by_cases hdj : dim = j
      · subst hdj
        rw [List.getD_eq_getElem?_getD,
          List.getElem?_set_self (show dim < ohe.length by omega)]
        simp
        omega
      · rw [List.getD_eq_getElem?_getD, List.getElem?_set_ne hdj,
          ← List.getD_eq_getElem?_getD]
        simp [hdj]

/-- C5: at every position `j` of the output vector, the encoder's value is
exactly the number of adjacent-character bigrams of the record's text that
the mapping sends to index `j`; bigrams absent from the mapping contribute
nothing and cause no error; in particular encoding "aabba" under the
mapping `{"aa": 0, "ab": 1, "bb": 2}` yields `[1, 1, 1]` (the unseen
bigram "ba" is ignored). -/
theorem encoder_position_counts_mapped_bigrams :
    (∀ (mapping : PyDict Nat) (text : List Char) (j : Nat),
        (∀ p ∈ mapping, p.2 < mapping.length) → j < mapping.length →
        (encode mapping text).getD j 0
          = ((bigramsOf text).filter
              (fun b => decide (dictGet? mapping b = some j))).length) ∧
    encode [("aa", 0), ("ab", 1), ("bb", 2)] "aabba".data = [1, 1, 1] := by
  constructor
  · intro mapping text j _hrange hj
    rw [encode,
      foldl_encodeStep_getD mapping j hj (bigramsOf text)
        (List.replicate mapping.length 0) (List.length_replicate ..),
      List.countP_eq_length_filter]
    simp
  · decide

/-- C5 witness: the claim's own example, with position `j = 1` checked
through the general statement and the full vector checked by evaluation. -/
theorem encoder_position_counts_mapped_bigrams_witness :
    (∀ p ∈ ([("aa", 0), ("ab", 1), ("bb", 2)] : PyDict Nat),
        p.2 < ([("aa", 0), ("ab", 1), ("bb", 2)] : PyDict Nat).length) ∧
    1 < ([("aa", 0), ("ab", 1), ("bb", 2)] : PyDict Nat).length ∧
    (encode [("aa", 0), ("ab", 1), ("bb", 2)] "aabba".data).getD 1 0
      = ((bigramsOf "aabba".data).filter
          (fun b => decide (dictGet? [("aa", 0), ("ab", 1), ("bb", 2)] b = some 1))).length :=
  ⟨by decide, by decide,
    encoder_position_counts_mapped_bigrams.1 [("aa", 0), ("ab", 1), ("bb", 2)]
      "aabba".data 1 (by decide) (by decide)⟩

/-- C9 witness: the dense two-entry mapping `{"aa": 0, "ab": 1}`. -/
theorem mapping_save_load_roundtrip_witness :
    ((([("aa", 0), ("ab", 1)] : PyDict Nat).map Prod.fst).Nodup ∧
      (∀ i < ([("aa", 0), ("ab", 1)] : PyDict Nat).length,
        ∃ p ∈ ([("aa", 0), ("ab", 1)] : PyDict Nat), p.2 = i)) ∧
    load_mapping_file (dump_bigram_to_dim_mapping [("aa", 0), ("ab", 1)])
      = [("aa", 0), ("ab", 1)] :=
  ⟨⟨by decide, by decide⟩,
    mapping_save_load_roundtrip [("aa", 0), ("ab", 1)] (by decide) (by decide)⟩

end BigramRepr
